import Mathlib

/-!
Verification of `src/quickwit-core/src/indexing/index.rs` (functions
`index_data` and `reset_index`).

The external collaborators (metadata store, blob store, garbage collector,
document source, split builder, split finalizer, bounded channel) live
outside the provided source file; their behaviour is supplied by an
abstract `Env` of oracles, and their effects on the metadata records are
modelled from the spec's external-interface contract.  The two functions
of the source file are embedded as pure functions from an `Env` to an
`Outcome`: the ordered trace of external calls they issue, the resulting
metadata records, and the returned `Result`.

Concurrency determinization: `futures::future::try_join_all` starts every
future; when one fails the others are dropped, so any completed subset of
the successful operations may have taken effect.  The embedding applies
all successful operations when the batch succeeds, and, when the batch
fails, applies exactly those successful operations the oracle
(`markCompleted` / `deleteCompleted`) says completed before cancellation —
one admissible schedule chosen per environment.
-/

/-- Split lifecycle states, from the spec's data model and
`quickwit_metastore::SplitState` as used by the source
(`SplitState::Published` at line 131). -/
inductive SplitState where
  | New
  | Sealed
  | Staged
  | Published
  | MarkedForDeleted
deriving DecidableEq, Repr

/-- Modelled from the spec: a split's metadata record as held by the
metadata store — its identifier and its lifecycle state.  Only these two
fields are observed by `reset_index`. -/
structure SplitRecord where
  split_id : String
  state : SplitState
deriving DecidableEq, Repr

/-- Errors that `index_data` / `reset_index` can propagate, one per
fallible external call site in the source. -/
inductive Err where
  | metastoreResolveError
  | listSplitsError
  | markError (split_id : String)
  | storageResolveError
  | deleteError (split_id : String)
  | sourceUnavailable
  | builderError (msg : String)
  | finalizerError (msg : String)
deriving DecidableEq, Repr

deriving instance DecidableEq for Except

/-- One observable external action issued by the embedded code, in program
order. -/
inductive Event where
  | resolveMetastore (metastore_uri : String)
  | listSplits (index_id : String) (state : SplitState)
  | markSplitAsDeleted (index_id : String) (split_id : String)
  | resolveStorage (index_uri : String)
  | garbageCollect (index_uri : String)
  | warnGc (index_uri : String)
  | deleteSplit (index_uri : String) (split_id : String)
  | printPrompt
  | createDocumentSource (input_uri : Option String)
  | createChannel (capacity : Nat)
  | runBuilder
  | runFinalizer
deriving DecidableEq, Repr

/-- Environment of oracles for the external collaborators: the metadata
store's current records and, for each external call, whether it fails
(and, for batched concurrent calls, which succeeding calls completed
before a failing batch was cancelled). -/
structure Env where
  records : List SplitRecord
  metastoreResolveFails : Bool
  listFails : Bool
  markFails : String → Bool
  markCompleted : String → Bool
  storageResolveFails : Bool
  gcFails : Bool
  deleteFails : String → Bool
  deleteCompleted : String → Bool
  sourceFails : Bool
  builderResult : Except Err Unit
  finalizerResult : Except Err Unit
  pipelinePublished : List SplitRecord

/-- Result of running an embedded function: the trace of external calls,
the metadata records afterwards, and the returned value. -/
structure Outcome where
  trace : List Event
  records : List SplitRecord
  result : Except Err Unit
deriving Repr

/-- Modelled from the spec: `Metastore::mark_split_as_deleted` transitions
the record with the given id to `MarkedForDeleted`. -/
def markOne (records : List SplitRecord) (sid : String) : List SplitRecord :=
  records.map fun r =>
    if r.split_id = sid then { r with state := SplitState.MarkedForDeleted } else r

/-- Apply the mark operations of a concurrent batch: those of the listed
split ids for which `completed` holds take effect. -/
def applyMarks (completed : String → Bool) (records : List SplitRecord)
    (sids : List String) : List SplitRecord :=
  sids.foldl (fun recs sid => if completed sid then markOne recs sid else recs) records

/-- Modelled from the spec: `Metastore::delete_split` removes the record
with the given id. -/
def deleteOne (records : List SplitRecord) (sid : String) : List SplitRecord :=
  records.filter fun r => r.split_id ≠ sid

/-- Apply the delete operations of a concurrent batch: those of the listed
split ids for which `completed` holds take effect. -/
def applyDeletes (completed : String → Bool) (records : List SplitRecord)
    (sids : List String) : List SplitRecord :=
  sids.foldl (fun recs sid => if completed sid then deleteOne recs sid else recs) records

/-- The split ids returned by `metastore.list_splits(index_id,
SplitState::Published, None)` (source line 130-132): ids of the records in
state `Published`. -/
def listedSplitIds (env : Env) : List String :=
  (env.records.filter fun r => r.state = SplitState.Published).map SplitRecord.split_id

/-- Embedding of `reset_index` (source lines 124-153):
list the `Published` splits, concurrently mark them as deleted
(`try_join_all`, line 134-138), resolve the storage (line 140), run
garbage collection logging a warning on failure (lines 141-144), then
concurrently delete the listed splits' records (`try_join_all`,
lines 146-150). -/
def reset_index (index_uri index_id : String) (env : Env) : Outcome :=
  let t0 := [Event.listSplits index_id SplitState.Published]
  if env.listFails then
    ⟨t0, env.records, Except.error Err.listSplitsError⟩
  else
    let sids := listedSplitIds env
    let tMark := sids.map fun sid => Event.markSplitAsDeleted index_id sid
    match sids.find? env.markFails with
    | some sid =>
        ⟨t0 ++ tMark,
         applyMarks (fun s => !env.markFails s && env.markCompleted s) env.records sids,
         Except.error (Err.markError sid)⟩
    | none =>
        let recs1 := applyMarks (fun _ => true) env.records sids
        let t1 := t0 ++ tMark ++ [Event.resolveStorage index_uri]
        if env.storageResolveFails then
          ⟨t1, recs1, Except.error Err.storageResolveError⟩
        else
          let tGc := Event.garbageCollect index_uri ::
            (if env.gcFails then [Event.warnGc index_uri] else [])
          let tDel := sids.map fun sid => Event.deleteSplit index_uri sid
          match sids.find? env.deleteFails with
          | some sid =>
              ⟨t1 ++ tGc ++ tDel,
               applyDeletes (fun s => !env.deleteFails s && env.deleteCompleted s) recs1 sids,
               Except.error (Err.deleteError sid)⟩
          | none =>
              ⟨t1 ++ tGc ++ tDel,
               applyDeletes (fun _ => true) recs1 sids,
               Except.ok ()⟩

/-- Channel capacity constant of the source (line 40). -/
def SPLIT_CHANNEL_SIZE : Nat := 30

/-- Embedding of the `IndexDataParams` struct (source lines 45-58).
`PathBuf` fields are modelled as strings (`to_string_lossy`). -/
structure IndexDataParams where
  index_uri : String
  input_uri : Option String
  temp_dir : String
  num_threads : Nat
  heap_size : Nat
  overwrite : Bool

/-- Combined result of `try_join!` over the builder and the finalizer
(source lines 98-109): the first error, else ok. -/
def tryJoin (a b : Except Err Unit) : Except Err Unit :=
  match a with
  | Except.error e => Except.error e
  | Except.ok _ => b

/-- The overwrite phase of `index_data` (source lines 82-90): run
`reset_index` when `params.overwrite` is set, otherwise do nothing. -/
def resetPhase (index_id : String) (params : IndexDataParams) (env : Env) : Outcome :=
  if params.overwrite then reset_index params.index_uri index_id env
  else ⟨[], env.records, Except.ok ()⟩

/-- Embedding of `index_data` (source lines 70-112): resolve the metastore
(lines 77-79), run `reset_index` when `overwrite` is set (lines 82-90),
print the stdin prompt when no input uri is given (lines 92-94), create
the document source (line 96), create the bounded split channel (line 97)
and join the builder and the finalizer (lines 98-109). -/
def index_data (metastore_uri index_id : String) (params : IndexDataParams)
    (env : Env) : Outcome :=
  let t0 := [Event.resolveMetastore metastore_uri]
  if env.metastoreResolveFails then
    ⟨t0, env.records, Except.error Err.metastoreResolveError⟩
  else
    let r : Outcome := resetPhase index_id params env
    match r.result with
    | Except.error e => ⟨t0 ++ r.trace, r.records, Except.error e⟩
    | Except.ok _ =>
        let tPrompt := if params.input_uri.isNone then [Event.printPrompt] else []
        let tSrc := [Event.createDocumentSource params.input_uri]
        if env.sourceFails then
          ⟨t0 ++ r.trace ++ tPrompt ++ tSrc, r.records, Except.error Err.sourceUnavailable⟩
        else
          ⟨t0 ++ r.trace ++ tPrompt ++ tSrc ++
             [Event.createChannel SPLIT_CHANNEL_SIZE, Event.runBuilder, Event.runFinalizer],
           r.records ++ env.pipelinePublished,
           tryJoin env.builderResult env.finalizerResult⟩

/-- Modelled from the spec: a sealed split as sent over the channel from
the builder to the finalizer.  Its contents are irrelevant to the channel
bound. -/
structure Split where
  split_id : String
deriving DecidableEq, Repr

/-- Modelled from the spec: the state of the bounded mpsc channel created
by `channel::<Split>(SPLIT_CHANNEL_SIZE)` (source line 97) — its fixed
capacity and the queue of sealed, not yet received splits. -/
structure BoundedChannel where
  capacity : Nat
  queue : List Split
deriving DecidableEq, Repr

/-- A freshly created bounded channel of the given capacity. -/
def boundedChannel (cap : Nat) : BoundedChannel :=
  ⟨cap, []⟩

/-- Modelled from the spec: the transitions of a bounded mpsc channel.  A
send enqueues only when the queue is below capacity (a sender suspends on
a full channel); a receive dequeues the oldest split. -/
inductive ChannelStep : BoundedChannel → BoundedChannel → Prop where
  | send (c : BoundedChannel) (s : Split) (h : c.queue.length < c.capacity) :
      ChannelStep c ⟨c.capacity, c.queue ++ [s]⟩
  | recv (c : BoundedChannel) (s : Split) (rest : List Split)
      (h : c.queue = s :: rest) :
      ChannelStep c ⟨c.capacity, rest⟩

/-- Channel states reachable from a freshly created channel of capacity
`cap` by any interleaving of sends and receives. -/
def ChannelReachable (cap : Nat) : BoundedChannel → Prop :=
  Relation.ReflTransGen ChannelStep (boundedChannel cap)

/-- Event classifier: document-source construction. -/
def isCreateSource : Event → Bool
  | Event.createDocumentSource _ => true
  | _ => false

/-- Event classifier: events of the ingestion pipeline — the
document-source construction, the channel creation, and the builder and
finalizer runs. -/
def isPipelineEvent : Event → Bool
  | Event.createDocumentSource _ => true
  | Event.createChannel _ => true
  | Event.runBuilder => true
  | Event.runFinalizer => true
  | _ => false

/-- Event classifier: metadata-record deletion. -/
def isDeleteEvent : Event → Bool
  | Event.deleteSplit _ _ => true
  | _ => false

/-- Event classifier: mark-as-deleted. -/
def isMarkEvent : Event → Bool
  | Event.markSplitAsDeleted _ _ => true
  | _ => false

/-- Event classifier: garbage-collection invocation. -/
def isGcEvent : Event → Bool
  | Event.garbageCollect _ => true
  | _ => false

/-- Number of occurrences of an event in a trace. -/
def countEvent (e : Event) (t : List Event) : Nat :=
  (t.filter fun x => x = e).length

/-- Event classifier: the events `reset_index` can issue. -/
def isResetEvent : Event → Bool
  | Event.listSplits _ _ => true
  | Event.markSplitAsDeleted _ _ => true
  | Event.resolveStorage _ => true
  | Event.garbageCollect _ => true
  | Event.warnGc _ => true
  | Event.deleteSplit _ _ => true
  | _ => false

theorem not_pipeline_of_resetEvent {e : Event} (h : isResetEvent e = true) :
    isPipelineEvent e = false := by
  cases e <;> simp_all [isResetEvent, isPipelineEvent]

theorem ne_prompt_of_resetEvent {e : Event} (h : isResetEvent e = true) :
    e ≠ Event.printPrompt := by
  cases e <;> simp_all [isResetEvent]

theorem not_createSource_of_resetEvent {e : Event} (h : isResetEvent e = true) :
    isCreateSource e = false := by
  cases e <;> simp_all [isResetEvent, isCreateSource]

/-- Shape of `reset_index` when the listing fails. -/
theorem reset_eq_of_listFails (u i : String) (env : Env)
    (hL : env.listFails = true) :
    reset_index u i env =
      ⟨[Event.listSplits i SplitState.Published], env.records,
        Except.error Err.listSplitsError⟩ := by
  simp [reset_index, hL]

/-- Shape of `reset_index` when a mark operation of the concurrent mark
batch fails (the first failing one, in listing order, is `sid`). -/
theorem reset_eq_of_markFail (u i : String) (env : Env) (sid : String)
    (hL : env.listFails = false)
    (hM : (listedSplitIds env).find? env.markFails = some sid) :
    reset_index u i env =
      ⟨Event.listSplits i SplitState.Published ::
          (listedSplitIds env).map (fun s => Event.markSplitAsDeleted i s),
        applyMarks (fun s => !env.markFails s && env.markCompleted s) env.records
          (listedSplitIds env),
        Except.error (Err.markError sid)⟩ := by
  simp [reset_index, hL, hM]

/-- Shape of `reset_index` when all marks succeed but the storage
resolution fails. -/
theorem reset_eq_of_resolveFail (u i : String) (env : Env)
    (hL : env.listFails = false)
    (hM : (listedSplitIds env).find? env.markFails = none)
    (hS : env.storageResolveFails = true) :
    reset_index u i env =
      ⟨Event.listSplits i SplitState.Published ::
          (listedSplitIds env).map (fun s => Event.markSplitAsDeleted i s) ++
          [Event.resolveStorage u],
        applyMarks (fun _ => true) env.records (listedSplitIds env),
        Except.error Err.storageResolveError⟩ := by
  simp [reset_index, hL, hM, hS]

/-- Shape of `reset_index` when all marks succeed and the storage resolves;
garbage collection may fail (warning logged) and the delete batch may fail
(first failing delete `sid`, in listing order). -/
theorem reset_eq_of_deleteFail (u i : String) (env : Env) (sid : String)
    (hL : env.listFails = false)
    (hM : (listedSplitIds env).find? env.markFails = none)
    (hS : env.storageResolveFails = false)
    (hD : (listedSplitIds env).find? env.deleteFails = some sid) :
    reset_index u i env =
      ⟨Event.listSplits i SplitState.Published ::
          (listedSplitIds env).map (fun s => Event.markSplitAsDeleted i s) ++
          [Event.resolveStorage u] ++
          (Event.garbageCollect u :: (if env.gcFails then [Event.warnGc u] else [])) ++
          (listedSplitIds env).map (fun s => Event.deleteSplit u s),
        applyDeletes (fun s => !env.deleteFails s && env.deleteCompleted s)
          (applyMarks (fun _ => true) env.records (listedSplitIds env))
          (listedSplitIds env),
        Except.error (Err.deleteError sid)⟩ := by
  simp [reset_index, hL, hM, hS, hD]

/-- Shape of `reset_index` when every metadata operation succeeds (garbage
collection may still fail: a warning is logged and the run continues). -/
theorem reset_eq_ok (u i : String) (env : Env)
    (hL : env.listFails = false)
    (hM : (listedSplitIds env).find? env.markFails = none)
    (hS : env.storageResolveFails = false)
    (hD : (listedSplitIds env).find? env.deleteFails = none) :
    reset_index u i env =
      ⟨Event.listSplits i SplitState.Published ::
          (listedSplitIds env).map (fun s => Event.markSplitAsDeleted i s) ++
          [Event.resolveStorage u] ++
          (Event.garbageCollect u :: (if env.gcFails then [Event.warnGc u] else [])) ++
          (listedSplitIds env).map (fun s => Event.deleteSplit u s),
        applyDeletes (fun _ => true)
          (applyMarks (fun _ => true) env.records (listedSplitIds env))
          (listedSplitIds env),
        Except.ok ()⟩ := by
  simp [reset_index, hL, hM, hS, hD]

/-- Every event `reset_index` issues is one of its six external calls. -/
theorem reset_trace_resetEvents (u i : String) (env : Env) :
    ∀ e ∈ (reset_index u i env).trace, isResetEvent e = true := by
  intro e he
  unfold reset_index at he
  cases hL : env.listFails with
  | true =>
      simp [hL] at he
      simp [he, isResetEvent]
  | false =>
      simp only [hL] at he
      cases hM : (listedSplitIds env).find? env.markFails with
      | some sid =>
          simp [hM] at he
          rcases he with h | ⟨s, _, h⟩ <;> subst h <;> rfl
      | none =>
          simp only [hM] at he
          cases hS : env.storageResolveFails with
          | true =>
              simp [hS] at he
              rcases he with h | ⟨s, _, h⟩ | h <;> subst h <;> rfl
          | false =>
              simp only [hS] at he
              cases hG : env.gcFails <;>
                cases hD : (listedSplitIds env).find? env.deleteFails <;>
                  simp [hD, hG] at he <;>
                    first
                      | (rcases he with h | ⟨s, _, h⟩ | h | h | h | ⟨s, _, h⟩ <;>
                          subst h <;> rfl)
                      | (rcases he with h | ⟨s, _, h⟩ | h | h | ⟨s, _, h⟩ <;>
                          subst h <;> rfl)

theorem markOne_map_split_id (recs : List SplitRecord) (sid : String) :
    (markOne recs sid).map SplitRecord.split_id = recs.map SplitRecord.split_id := by
  induction recs with
  | nil => rfl
  | cons a l ih =>
      simp only [markOne, List.map_cons] at *
      by_cases h : a.split_id = sid <;> simp [h, ih]

theorem mem_markOne_of_ne {r : SplitRecord} {recs : List SplitRecord} {sid : String}
    (hr : r ∈ recs) (h : r.split_id ≠ sid) : r ∈ markOne recs sid := by
  unfold markOne
  exact List.mem_map.mpr ⟨r, hr, if_neg h⟩

theorem mem_markOne {r : SplitRecord} {recs : List SplitRecord} {sid : String}
    (h : r ∈ markOne recs sid) :
    ∃ r0 ∈ recs, r.split_id = r0.split_id ∧
      (r.state = r0.state ∨ r.state = SplitState.MarkedForDeleted) := by
  obtain ⟨r0, hr0, heq⟩ := List.mem_map.mp h
  by_cases hc : r0.split_id = sid
  · rw [if_pos hc] at heq
    exact ⟨r0, hr0, by simp [← heq]⟩
  · rw [if_neg hc] at heq
    exact ⟨r0, hr0, by simp [← heq]⟩

theorem applyMarks_map_split_id (c : String → Bool) (recs : List SplitRecord)
    (sids : List String) :
    (applyMarks c recs sids).map SplitRecord.split_id =
      recs.map SplitRecord.split_id := by
  induction sids generalizing recs with
  | nil => rfl
  | cons sid rest ih =>
      simp only [applyMarks, List.foldl_cons] at *
      by_cases h : c sid = true
      · rw [if_pos h, ih, markOne_map_split_id]
      · rw [if_neg h, ih]

theorem mem_applyMarks_of_notMem {r : SplitRecord} {recs : List SplitRecord}
    {sids : List String} (c : String → Bool)
    (hr : r ∈ recs) (h : r.split_id ∉ sids) : r ∈ applyMarks c recs sids := by
  induction sids generalizing recs with
  | nil => exact hr
  | cons sid rest ih =>
      simp only [applyMarks, List.foldl_cons]
      have hne : r.split_id ≠ sid := fun hc => h (by simp [hc])
      have hrest : r.split_id ∉ rest := fun hc => h (by simp [hc])
      by_cases hc : c sid = true
      · rw [if_pos hc]
        exact ih (mem_markOne_of_ne hr hne) hrest
      · rw [if_neg hc]
        exact ih hr hrest

theorem mem_applyMarks {r : SplitRecord} {recs : List SplitRecord}
    {sids : List String} {c : String → Bool}
    (h : r ∈ applyMarks c recs sids) :
    ∃ r0 ∈ recs, r.split_id = r0.split_id ∧
      (r.state = r0.state ∨ r.state = SplitState.MarkedForDeleted) := by
  induction sids generalizing recs with
  | nil => exact ⟨r, h, rfl, Or.inl rfl⟩
  | cons sid rest ih =>
      simp only [applyMarks, List.foldl_cons] at h
      by_cases hc : c sid = true
      · rw [if_pos hc] at h
        obtain ⟨r1, hr1, hid, hst⟩ := ih h
        obtain ⟨r0, hr0, hid0, hst0⟩ := mem_markOne hr1
        refine ⟨r0, hr0, hid.trans hid0, ?_⟩
        rcases hst with h1 | h1
        · rcases hst0 with h2 | h2
          · exact Or.inl (h1.trans h2)
          · exact Or.inr (h1.trans h2)
        · exact Or.inr h1
      · rw [if_neg hc] at h
        exact ih h

theorem mem_of_mem_applyDeletes {r : SplitRecord} {recs : List SplitRecord}
    {sids : List String} {c : String → Bool}
    (h : r ∈ applyDeletes c recs sids) : r ∈ recs := by
  induction sids generalizing recs with
  | nil => exact h
  | cons sid rest ih =>
      simp only [applyDeletes, List.foldl_cons] at h
      by_cases hc : c sid = true
      · rw [if_pos hc] at h
        exact List.mem_of_mem_filter (ih h)
      · rw [if_neg hc] at h
        exact ih h

theorem mem_applyDeletes_of_notMem {r : SplitRecord} {recs : List SplitRecord}
    {sids : List String} (c : String → Bool)
    (hr : r ∈ recs) (h : r.split_id ∉ sids) : r ∈ applyDeletes c recs sids := by
  induction sids generalizing recs with
  | nil => exact hr
  | cons sid rest ih =>
      simp only [applyDeletes, List.foldl_cons]
      have hne : r.split_id ≠ sid := fun hc => h (by simp [hc])
      have hrest : r.split_id ∉ rest := fun hc => h (by simp [hc])
      by_cases hc : c sid = true
      · rw [if_pos hc]
        refine ih (List.mem_filter.mpr ⟨hr, ?_⟩) hrest
        simp [deleteOne, hne]
      · rw [if_neg hc]
        exact ih hr hrest

theorem not_mem_listed_of_ne_published {env : Env} {r : SplitRecord}
    (hnd : (env.records.map SplitRecord.split_id).Nodup)
    (hr : r ∈ env.records) (hs : r.state ≠ SplitState.Published) :
    r.split_id ∉ listedSplitIds env := by
  intro hmem
  obtain ⟨p, hp, hpid⟩ := List.mem_map.mp hmem
  have hpmem : p ∈ env.records := List.mem_of_mem_filter hp
  have hppub : p.state = SplitState.Published := by
    have := List.of_mem_filter hp
    simpa using this
  have : p = r := List.inj_on_of_nodup_map hnd hpmem hr hpid
  exact hs (this ▸ hppub)

theorem reset_records_id_mem {u i : String} {env : Env} {r : SplitRecord}
    (h : r ∈ (reset_index u i env).records) :
    r.split_id ∈ env.records.map SplitRecord.split_id := by
  unfold reset_index at h
  cases hL : env.listFails with
  | true =>
      simp [hL] at h
      exact List.mem_map_of_mem _ h
  | false =>
      simp only [hL] at h
      cases hM : (listedSplitIds env).find? env.markFails with
      | some sid =>
          simp [hM] at h
          rw [← applyMarks_map_split_id (fun s => !env.markFails s && env.markCompleted s)
            env.records (listedSplitIds env)]
          exact List.mem_map_of_mem _ h
      | none =>
          simp only [hM] at h
          cases hS : env.storageResolveFails with
          | true =>
              simp [hS] at h
              rw [← applyMarks_map_split_id (fun _ => true) env.records (listedSplitIds env)]
              exact List.mem_map_of_mem _ h
          | false =>
              simp only [hS] at h
              rw [← applyMarks_map_split_id (fun _ => true) env.records (listedSplitIds env)]
              cases hD : (listedSplitIds env).find? env.deleteFails <;>
                simp [hD] at h <;>
                  exact List.mem_map_of_mem _ (mem_of_mem_applyDeletes h)

theorem resetPhase_of_overwrite (i : String) (params : IndexDataParams) (env : Env)
    (h : params.overwrite = true) :
    resetPhase i params env = reset_index params.index_uri i env := by
  simp [resetPhase, h]

theorem resetPhase_trace_resetEvents (i : String) (params : IndexDataParams) (env : Env) :
    ∀ e ∈ (resetPhase i params env).trace, isResetEvent e = true := by
  unfold resetPhase
  by_cases h : params.overwrite = true
  · rw [if_pos h]
    exact reset_trace_resetEvents params.index_uri i env
  · rw [if_neg h]
    intro e he
    simp at he

/-- Shape of `index_data` when the metastore resolution fails. -/
theorem index_data_eq_of_resolveFail (m i : String) (params : IndexDataParams)
    (env : Env) (h : env.metastoreResolveFails = true) :
    index_data m i params env =
      ⟨[Event.resolveMetastore m], env.records,
        Except.error Err.metastoreResolveError⟩ := by
  simp [index_data, h]

/-- Shape of `index_data` when the reset phase fails. -/
theorem index_data_eq_of_resetErr (m i : String) (params : IndexDataParams)
    (env : Env) (e : Err)
    (hres : env.metastoreResolveFails = false)
    (hre : (resetPhase i params env).result = Except.error e) :
    index_data m i params env =
      ⟨Event.resolveMetastore m :: (resetPhase i params env).trace,
        (resetPhase i params env).records, Except.error e⟩ := by
  simp [index_data, hres, hre]

/-- Shape of `index_data` when the reset phase succeeds but the document
source cannot be opened. -/
theorem index_data_eq_of_srcFail (m i : String) (params : IndexDataParams)
    (env : Env)
    (hres : env.metastoreResolveFails = false)
    (hrp : (resetPhase i params env).result = Except.ok ())
    (hsrc : env.sourceFails = true) :
    index_data m i params env =
      ⟨Event.resolveMetastore m ::
          ((resetPhase i params env).trace ++
            (if params.input_uri.isNone then [Event.printPrompt] else []) ++
            [Event.createDocumentSource params.input_uri]),
        (resetPhase i params env).records, Except.error Err.sourceUnavailable⟩ := by
  simp [index_data, hres, hrp, hsrc]

/-- Shape of `index_data` when it reaches the builder/finalizer join. -/
theorem index_data_eq_run (m i : String) (params : IndexDataParams) (env : Env)
    (hres : env.metastoreResolveFails = false)
    (hrp : (resetPhase i params env).result = Except.ok ())
    (hsrc : env.sourceFails = false) :
    index_data m i params env =
      ⟨Event.resolveMetastore m ::
          ((resetPhase i params env).trace ++
            (if params.input_uri.isNone then [Event.printPrompt] else []) ++
            [Event.createDocumentSource params.input_uri] ++
            [Event.createChannel SPLIT_CHANNEL_SIZE, Event.runBuilder,
              Event.runFinalizer]),
        (resetPhase i params env).records ++ env.pipelinePublished,
        tryJoin env.builderResult env.finalizerResult⟩ := by
  simp [index_data, hres, hrp, hsrc]

theorem find?_eq_none_of_forall {l : List String} {p : String → Bool}
    (h : ∀ s ∈ l, p s = false) : l.find? p = none :=
  List.find?_eq_none.mpr fun x hx => by simp [h x hx]

theorem countEvent_append (e : Event) (a b : List Event) :
    countEvent e (a ++ b) = countEvent e a + countEvent e b := by
  simp [countEvent, List.filter_append]

theorem countEvent_cons_self (e : Event) (t : List Event) :
    countEvent e (e :: t) = countEvent e t + 1 := by
  simp [countEvent, List.filter_cons, Nat.add_comm]

theorem countEvent_cons_of_ne {e x : Event} (t : List Event) (h : x ≠ e) :
    countEvent e (x :: t) = countEvent e t := by
  simp [countEvent, List.filter_cons, h]

theorem countEvent_eq_zero {e : Event} {t : List Event} (h : e ∉ t) :
    countEvent e t = 0 := by
  unfold countEvent
  rw [List.length_eq_zero]
  apply List.filter_eq_nil_iff.mpr
  intro a ha
  simp only [decide_eq_true_eq]
  intro hax
  exact h (hax ▸ ha)

theorem takeWhile_append_of_all {p : Event → Bool} {l1 l2 : List Event}
    (h : ∀ x ∈ l1, p x = true) :
    (l1 ++ l2).takeWhile p = l1 ++ l2.takeWhile p := by
  induction l1 with
  | nil => rfl
  | cons a l ih =>
      have ha := h a (by simp)
      simp only [List.cons_append, List.takeWhile_cons, ha, if_true]
      rw [ih fun x hx => h x (by simp [hx])]

/-- A concrete environment: two published splits, one staged split, every
external call succeeding. -/
def envBase : Env where
  records := [⟨"a", SplitState.Published⟩, ⟨"b", SplitState.Published⟩,
    ⟨"c", SplitState.Staged⟩]
  metastoreResolveFails := false
  listFails := false
  markFails := fun _ => false
  markCompleted := fun _ => true
  storageResolveFails := false
  gcFails := false
  deleteFails := fun _ => false
  deleteCompleted := fun _ => true
  sourceFails := false
  builderResult := Except.ok ()
  finalizerResult := Except.ok ()
  pipelinePublished := [⟨"n1", SplitState.Published⟩]

/-- Claim C2: in `reset_index` a garbage-collection failure is non-fatal:
it is only logged as a warning, the delete phase still issues a
metadata-record deletion for every originally listed split, and
`reset_index` returns success whenever the mark phase and the delete
phase both succeed, even though garbage collection failed. -/
theorem reset_gc_failure_nonfatal (u i : String) (env : Env)
    (hL : env.listFails = false)
    (hM : ∀ sid ∈ listedSplitIds env, env.markFails sid = false)
    (hS : env.storageResolveFails = false)
    (hG : env.gcFails = true) :
    Event.warnGc u ∈ (reset_index u i env).trace
    ∧ (∀ sid ∈ listedSplitIds env,
        Event.deleteSplit u sid ∈ (reset_index u i env).trace)
    ∧ ((∀ sid ∈ listedSplitIds env, env.deleteFails sid = false) →
        (reset_index u i env).result = Except.ok ()) := by
  have hM' := find?_eq_none_of_forall hM
  cases hD : (listedSplitIds env).find? env.deleteFails with
  | some sid =>
      rw [reset_eq_of_deleteFail u i env sid hL hM' hS hD]
      refine ⟨by simp [hG], fun s hs => by simp [hG, hs], fun hall => ?_⟩
      rw [find?_eq_none_of_forall hall] at hD
      cases hD
  | none =>
      rw [reset_eq_ok u i env hL hM' hS hD]
      exact ⟨by simp [hG], fun s hs => by simp [hG, hs], fun _ => rfl⟩

theorem reset_gc_failure_nonfatal_witness :
    Event.warnGc "u" ∈ (reset_index "u" "i" { envBase with gcFails := true }).trace
    ∧ (reset_index "u" "i" { envBase with gcFails := true }).result = Except.ok () :=
  ⟨(reset_gc_failure_nonfatal "u" "i" { envBase with gcFails := true }
      rfl (by decide) rfl rfl).1,
   (reset_gc_failure_nonfatal "u" "i" { envBase with gcFails := true }
      rfl (by decide) rfl rfl).2.2 (by decide)⟩

/-- Claim C5: `reset_index` obtains its working set by listing exactly the
`Published` splits from the metadata store, and its delete phase issues a
metadata-record deletion for exactly that originally listed set of splits,
one per listed split and in listing order, whatever the outcome of garbage
collection or of the individual deletes. -/
theorem reset_delete_phase_matches_listing (u i : String) (env : Env)
    (hL : env.listFails = false)
    (hM : ∀ sid ∈ listedSplitIds env, env.markFails sid = false)
    (hS : env.storageResolveFails = false) :
    (reset_index u i env).trace.filter isDeleteEvent =
      (env.records.filter fun r => r.state = SplitState.Published).map
        (fun r => Event.deleteSplit u r.split_id)
    ∧ Event.listSplits i SplitState.Published ∈ (reset_index u i env).trace := by
  have hM' := find?_eq_none_of_forall hM
  cases hD : (listedSplitIds env).find? env.deleteFails with
  | some sid =>
      rw [reset_eq_of_deleteFail u i env sid hL hM' hS hD]
      cases hG : env.gcFails <;>
        simp [isDeleteEvent, List.filter_append, List.filter_map, listedSplitIds,
          List.map_map, Function.comp]
  | none =>
      rw [reset_eq_ok u i env hL hM' hS hD]
      cases hG : env.gcFails <;>
        simp [isDeleteEvent, List.filter_append, List.filter_map, listedSplitIds,
          List.map_map, Function.comp]

theorem reset_delete_phase_matches_listing_witness :
    (reset_index "u" "i" envBase).trace.filter isDeleteEvent =
      [Event.deleteSplit "u" "a", Event.deleteSplit "u" "b"] :=
  ((reset_delete_phase_matches_listing "u" "i" envBase rfl (by decide) rfl).1).trans
    (by decide)

/-- Claim C9: when the metadata store lists zero `Published` splits,
`reset_index` performs no mark-as-deleted and no metadata-record deletion,
still resolves the index's storage and invokes garbage collection exactly
once, and returns success when the listing and the storage resolution
succeed. -/
theorem reset_empty_listing_gc_once (u i : String) (env : Env)
    (hL : env.listFails = false)
    (hE : listedSplitIds env = [])
    (hS : env.storageResolveFails = false) :
    (reset_index u i env).trace.filter isMarkEvent = []
    ∧ (reset_index u i env).trace.filter isDeleteEvent = []
    ∧ Event.resolveStorage u ∈ (reset_index u i env).trace
    ∧ countEvent (Event.garbageCollect u) (reset_index u i env).trace = 1
    ∧ (reset_index u i env).result = Except.ok () := by
  have hM' : (listedSplitIds env).find? env.markFails = none := by rw [hE]; rfl
  have hD' : (listedSplitIds env).find? env.deleteFails = none := by rw [hE]; rfl
  rw [reset_eq_ok u i env hL hM' hS hD', hE]
  cases hG : env.gcFails <;>
    simp [isMarkEvent, isDeleteEvent, countEvent, List.filter_cons]

theorem reset_empty_listing_gc_once_witness :
    countEvent (Event.garbageCollect "u")
        (reset_index "u" "i" { envBase with records := [⟨"c", SplitState.Staged⟩] }).trace = 1
    ∧ (reset_index "u" "i" { envBase with records := [⟨"c", SplitState.Staged⟩] }).result =
        Except.ok () :=
  ⟨(reset_empty_listing_gc_once "u" "i"
      { envBase with records := [⟨"c", SplitState.Staged⟩] } rfl (by decide) rfl).2.2.2.1,
   (reset_empty_listing_gc_once "u" "i"
      { envBase with records := [⟨"c", SplitState.Staged⟩] } rfl (by decide) rfl).2.2.2.2⟩

theorem reset_trace_mark_listed (u i : String) (env : Env) :
    ∀ j s, Event.markSplitAsDeleted j s ∈ (reset_index u i env).trace →
      s ∈ listedSplitIds env := by
  intro j s hmem
  unfold reset_index at hmem
  cases hL : env.listFails with
  | true => simp [hL] at hmem
  | false =>
      simp only [hL] at hmem
      cases hM : (listedSplitIds env).find? env.markFails with
      | some sid =>
          simp [hM] at hmem
          first
            | exact hmem
            | exact hmem.1
            | exact hmem.2
      | none =>
          simp only [hM] at hmem
          cases hS : env.storageResolveFails with
          | true =>
              simp [hS] at hmem
              first
                | exact hmem
                | exact hmem.1
                | exact hmem.2
          | false =>
              simp only [hS] at hmem
              cases hG : env.gcFails <;>
                cases hD : (listedSplitIds env).find? env.deleteFails <;>
                  simp [hD, hG] at hmem <;>
                    first
                      | exact hmem
                      | exact hmem.1
                      | exact hmem.2

theorem reset_trace_delete_listed (u i : String) (env : Env) :
    ∀ j s, Event.deleteSplit j s ∈ (reset_index u i env).trace →
      s ∈ listedSplitIds env := by
  intro j s hmem
  unfold reset_index at hmem
  cases hL : env.listFails with
  | true => simp [hL] at hmem
  | false =>
      simp only [hL] at hmem
      cases hM : (listedSplitIds env).find? env.markFails with
      | some sid => simp [hM] at hmem
      | none =>
          simp only [hM] at hmem
          cases hS : env.storageResolveFails with
          | true => simp [hS] at hmem
          | false =>
              simp only [hS] at hmem
              cases hG : env.gcFails <;>
                cases hD : (listedSplitIds env).find? env.deleteFails <;>
                  simp [hD, hG] at hmem <;>
                    first
                      | exact hmem
                      | exact hmem.1
                      | exact hmem.2

/-- Claim C10: `reset_index` marks and deletes only splits that were
listed as `Published` at listing time; a record in any other state
(assuming the metadata-store invariant of unique split ids) is left in
the store unchanged by the mark and delete phases, in every branch of the
protocol. -/
theorem reset_frame_non_published_untouched (u i : String) (env : Env)
    (hnd : (env.records.map SplitRecord.split_id).Nodup) :
    (∀ j s, Event.markSplitAsDeleted j s ∈ (reset_index u i env).trace →
        s ∈ listedSplitIds env)
    ∧ (∀ j s, Event.deleteSplit j s ∈ (reset_index u i env).trace →
        s ∈ listedSplitIds env)
    ∧ (∀ r ∈ env.records, r.state ≠ SplitState.Published →
        r ∈ (reset_index u i env).records) := by
  refine ⟨reset_trace_mark_listed u i env, reset_trace_delete_listed u i env, ?_⟩
  intro r hr hst
  have hid := not_mem_listed_of_ne_published hnd hr hst
  cases hL : env.listFails with
  | true =>
      rw [reset_eq_of_listFails u i env hL]
      exact hr
  | false =>
      cases hM : (listedSplitIds env).find? env.markFails with
      | some sid =>
          rw [reset_eq_of_markFail u i env sid hL hM]
          exact mem_applyMarks_of_notMem _ hr hid
      | none =>
          cases hS : env.storageResolveFails with
          | true =>
              rw [reset_eq_of_resolveFail u i env hL hM hS]
              exact mem_applyMarks_of_notMem _ hr hid
          | false =>
              cases hD : (listedSplitIds env).find? env.deleteFails with
              | some sid =>
                  rw [reset_eq_of_deleteFail u i env sid hL hM hS hD]
                  exact mem_applyDeletes_of_notMem _
                    (mem_applyMarks_of_notMem _ hr hid) hid
              | none =>
                  rw [reset_eq_ok u i env hL hM hS hD]
                  exact mem_applyDeletes_of_notMem _
                    (mem_applyMarks_of_notMem _ hr hid) hid

theorem reset_frame_non_published_untouched_witness :
    SplitRecord.mk "c" SplitState.Staged ∈ (reset_index "u" "i" envBase).records :=
  (reset_frame_non_published_untouched "u" "i" envBase (by decide)).2.2
    ⟨"c", SplitState.Staged⟩ (by decide) (by decide)

/-- Claim C1 exactly as stated: if any single mark operation fails, then
`reset_index` returns that mark's error, performs no further action (no
garbage collection, no storage resolution and no metadata-record deletion
appear in the trace), and previously published data remains visible and
intact (every record that was `Published` is still present unchanged, i.e.
still visible). -/
def C1Claim (u i : String) (env : Env) : Prop :=
  (∃ sid ∈ listedSplitIds env, env.markFails sid = true) →
    (∃ sid ∈ listedSplitIds env, env.markFails sid = true ∧
        (reset_index u i env).result = Except.error (Err.markError sid))
    ∧ (reset_index u i env).trace.filter isGcEvent = []
    ∧ (reset_index u i env).trace.filter isDeleteEvent = []
    ∧ ∀ r ∈ env.records, r.state = SplitState.Published →
        r ∈ (reset_index u i env).records

/-- Environment refuting claim C1 as stated: two published splits; the
mark of split `b` fails while the concurrently issued mark of split `a`
succeeds and completes, so `a` is no longer `Published` even though the
reset failed closed. -/
def envC1 : Env :=
  { envBase with markFails := fun s => s == "b" }

theorem reset_mark_failure_claim_false : ¬ C1Claim "u" "i" envC1 := by
  unfold C1Claim
  decide

/-- Claim C1 (amended): if any single mark operation of the concurrent
mark batch fails (the first failing one, in listing order, being `sid`),
`reset_index` returns that mark's error and performs no further action —
its trace is exactly the listing call followed by the mark calls, with no
storage resolution, no garbage collection and no metadata-record deletion
— and no metadata record is removed: the store keeps exactly the same
split ids, each record either unchanged or (for splits whose concurrent
mark already completed) moved to `MarkedForDeleted`; such marked splits
are, however, no longer visible. -/
theorem reset_mark_failure_fails_closed (u i : String) (env : Env) (sid : String)
    (hL : env.listFails = false)
    (hM : (listedSplitIds env).find? env.markFails = some sid) :
    (reset_index u i env).result = Except.error (Err.markError sid)
    ∧ (reset_index u i env).trace =
        Event.listSplits i SplitState.Published ::
          (listedSplitIds env).map (fun s => Event.markSplitAsDeleted i s)
    ∧ (reset_index u i env).records.map SplitRecord.split_id =
        env.records.map SplitRecord.split_id
    ∧ ∀ r ∈ (reset_index u i env).records,
        ∃ r0 ∈ env.records, r.split_id = r0.split_id ∧
          (r.state = r0.state ∨ r.state = SplitState.MarkedForDeleted) := by
  rw [reset_eq_of_markFail u i env sid hL hM]
  exact ⟨rfl, rfl, applyMarks_map_split_id _ _ _, fun r hr => mem_applyMarks hr⟩

theorem reset_mark_failure_fails_closed_witness :
    (reset_index "u" "i" envC1).result = Except.error (Err.markError "b")
    ∧ (reset_index "u" "i" envC1).records.map SplitRecord.split_id =
        envC1.records.map SplitRecord.split_id :=
  ⟨(reset_mark_failure_fails_closed "u" "i" envC1 "b" rfl (by decide)).1,
   (reset_mark_failure_fails_closed "u" "i" envC1 "b" rfl (by decide)).2.2.1⟩

theorem not_mem_of_not_resetEvent {i : String} {params : IndexDataParams}
    {env : Env} {e : Event} (h : isResetEvent e = false) :
    e ∉ (resetPhase i params env).trace := fun hmem => by
  rw [resetPhase_trace_resetEvents i params env e hmem] at h
  cases h

theorem resetPhase_records_id_mem {i : String} {params : IndexDataParams}
    {env : Env} {r : SplitRecord} (h : r ∈ (resetPhase i params env).records) :
    r.split_id ∈ env.records.map SplitRecord.split_id := by
  unfold resetPhase at h
  by_cases ho : params.overwrite = true
  · rw [if_pos ho] at h
    exact reset_records_id_mem h
  · rw [if_neg ho] at h
    exact List.mem_map_of_mem _ h

/-- Claim C3: for every call to `index_data` with the overwrite flag set
(once the shared metastore handle is resolved), the reset protocol runs to
completion before the document source is constructed and before any
document is read: the full reset trace precedes everything else, the reset
issues no pipeline event, and if the reset fails `index_data` returns that
error with no document-source construction and no builder/finalizer
start. -/
theorem index_data_overwrite_reset_before_ingest (m i : String)
    (params : IndexDataParams) (env : Env)
    (hov : params.overwrite = true)
    (hres : env.metastoreResolveFails = false) :
    (∃ rest, (index_data m i params env).trace =
        Event.resolveMetastore m ::
          ((reset_index params.index_uri i env).trace ++ rest))
    ∧ (∀ e ∈ (reset_index params.index_uri i env).trace, isPipelineEvent e = false)
    ∧ (∀ e, (reset_index params.index_uri i env).result = Except.error e →
        (index_data m i params env).result = Except.error e
        ∧ ∀ ev ∈ (index_data m i params env).trace, isPipelineEvent ev = false) := by
  have hrp := resetPhase_of_overwrite i params env hov
  refine ⟨?_, fun e he =>
    not_pipeline_of_resetEvent (reset_trace_resetEvents params.index_uri i env e he), ?_⟩
  · cases hr : (reset_index params.index_uri i env).result with
    | error e =>
        rw [index_data_eq_of_resetErr m i params env e hres (by rw [hrp, hr])]
        exact ⟨[], by rw [hrp, List.append_nil]⟩
    | ok v =>
        cases v
        cases hsrc : env.sourceFails with
        | true =>
            rw [index_data_eq_of_srcFail m i params env hres (by rw [hrp, hr]) hsrc]
            refine ⟨(if params.input_uri.isNone then [Event.printPrompt] else []) ++
              [Event.createDocumentSource params.input_uri], ?_⟩
            rw [hrp]
            simp [List.append_assoc]
        | false =>
            rw [index_data_eq_run m i params env hres (by rw [hrp, hr]) hsrc]
            refine ⟨(if params.input_uri.isNone then [Event.printPrompt] else []) ++
              [Event.createDocumentSource params.input_uri] ++
              [Event.createChannel SPLIT_CHANNEL_SIZE, Event.runBuilder,
                Event.runFinalizer], ?_⟩
            rw [hrp]
            simp [List.append_assoc]
  · intro e hre
    rw [index_data_eq_of_resetErr m i params env e hres (by rw [hrp, hre])]
    refine ⟨rfl, ?_⟩
    intro ev hev
    rcases List.mem_cons.mp hev with h | h
    · subst h
      rfl
    · exact not_pipeline_of_resetEvent (resetPhase_trace_resetEvents i params env ev h)

theorem index_data_overwrite_reset_before_ingest_witness :
    (∃ rest,
      (index_data "m" "i" ⟨"u", some "in", "t", 2, 1000, true⟩ envBase).trace =
        Event.resolveMetastore "m" ::
          ((reset_index "u" "i" envBase).trace ++ rest)) :=
  (index_data_overwrite_reset_before_ingest "m" "i"
    ⟨"u", some "in", "t", 2, 1000, true⟩ envBase rfl rfl).1

/-- Claim C4: once `index_data` reaches the pipeline, it runs the builder
and the finalizer joined by `try_join!` and succeeds exactly when both
sides succeed; a failing side's error is propagated as the result of
`index_data`, and each side is started exactly once (no retry at this
layer). -/
theorem index_data_join_builder_finalizer (m i : String)
    (params : IndexDataParams) (env : Env)
    (hres : env.metastoreResolveFails = false)
    (hrp : (resetPhase i params env).result = Except.ok ())
    (hsrc : env.sourceFails = false) :
    ((index_data m i params env).result = Except.ok () ↔
      (env.builderResult = Except.ok () ∧ env.finalizerResult = Except.ok ()))
    ∧ (∀ e, env.builderResult = Except.error e →
        (index_data m i params env).result = Except.error e)
    ∧ (∀ e, env.builderResult = Except.ok () → env.finalizerResult = Except.error e →
        (index_data m i params env).result = Except.error e)
    ∧ countEvent Event.runBuilder (index_data m i params env).trace = 1
    ∧ countEvent Event.runFinalizer (index_data m i params env).trace = 1 := by
  rw [index_data_eq_run m i params env hres hrp hsrc]
  have hb0 : Event.runBuilder ∉ (resetPhase i params env).trace :=
    not_mem_of_not_resetEvent rfl
  have hf0 : Event.runFinalizer ∉ (resetPhase i params env).trace :=
    not_mem_of_not_resetEvent rfl
  have hprompt : ∀ e : Event,
      countEvent e (if params.input_uri.isNone then [Event.printPrompt] else []) =
        countEvent e [Event.printPrompt] ∨
      countEvent e (if params.input_uri.isNone then [Event.printPrompt] else []) =
        countEvent e ([] : List Event) := by
    intro e
    by_cases hin : params.input_uri.isNone <;> simp [hin]
  refine ⟨?_, ?_, ?_, ?_, ?_⟩
  · cases hb : env.builderResult with
    | error e => cases hf : env.finalizerResult <;> simp [tryJoin]
    | ok v =>
        cases v
        cases hf : env.finalizerResult <;> simp [tryJoin]
  · intro e hb
    simp [tryJoin, hb]
  · intro e hb hf
    simp [tryJoin, hb, hf]
  · rw [countEvent_cons_of_ne _ (by simp), countEvent_append, countEvent_append,
      countEvent_append, countEvent_eq_zero hb0]
    rcases hprompt Event.runBuilder with h | h <;> rw [h] <;> simp [countEvent]
  · rw [countEvent_cons_of_ne _ (by simp), countEvent_append, countEvent_append,
      countEvent_append, countEvent_eq_zero hf0]
    rcases hprompt Event.runFinalizer with h | h <;> rw [h] <;> simp [countEvent]

theorem index_data_join_builder_finalizer_witness :
    (index_data "m" "i" ⟨"u", some "in", "t", 2, 1000, false⟩
        { envBase with finalizerResult := Except.error (Err.finalizerError "boom") }).result =
      Except.error (Err.finalizerError "boom") :=
  (index_data_join_builder_finalizer "m" "i" ⟨"u", some "in", "t", 2, 1000, false⟩
      { envBase with finalizerResult := Except.error (Err.finalizerError "boom") }
      rfl rfl rfl).2.2.1 (Err.finalizerError "boom") rfl rfl

/-- Claim C6: when the document source cannot be opened, `index_data`
fails with the document-source error before the split channel is created
and before the builder or the finalizer runs; the metadata records are
exactly those left by the (possibly trivial) reset phase, and no new
split id appears, so zero splits are created, staged or published by the
run. -/
theorem index_data_source_failure_aborts (m i : String)
    (params : IndexDataParams) (env : Env)
    (hres : env.metastoreResolveFails = false)
    (hrp : (resetPhase i params env).result = Except.ok ())
    (hsrc : env.sourceFails = true) :
    (index_data m i params env).result = Except.error Err.sourceUnavailable
    ∧ (∀ cap, Event.createChannel cap ∉ (index_data m i params env).trace)
    ∧ Event.runBuilder ∉ (index_data m i params env).trace
    ∧ Event.runFinalizer ∉ (index_data m i params env).trace
    ∧ (index_data m i params env).records = (resetPhase i params env).records
    ∧ (∀ r ∈ (index_data m i params env).records,
        r.split_id ∈ env.records.map SplitRecord.split_id) := by
  rw [index_data_eq_of_srcFail m i params env hres hrp hsrc]
  have habs : ∀ e : Event, isResetEvent e = false →
      (e = Event.resolveMetastore m → False) →
      (e = Event.printPrompt → False) →
      (∀ x, e = Event.createDocumentSource x → False) →
      e ∉ Event.resolveMetastore m ::
        ((resetPhase i params env).trace ++
          (if params.input_uri.isNone then [Event.printPrompt] else []) ++
          [Event.createDocumentSource params.input_uri]) := by
    intro e hre hm hp hc hmem
    rcases List.mem_cons.mp hmem with h | h
    · exact hm h
    · rcases List.mem_append.mp h with h | h
      · rcases List.mem_append.mp h with h | h
        · exact absurd (resetPhase_trace_resetEvents i params env e h) (by simp [hre])
        · by_cases hin : params.input_uri.isNone
          · rw [if_pos hin] at h
            exact hp (List.mem_singleton.mp h)
          · rw [if_neg hin] at h
            simp at h
      · exact hc params.input_uri (List.mem_singleton.mp h)
  refine ⟨rfl, ?_, ?_, ?_, rfl, ?_⟩
  · intro cap
    exact habs _ rfl (by simp) (by simp) (by simp)
  · exact habs _ rfl (by simp) (by simp) (by simp)
  · exact habs _ rfl (by simp) (by simp) (by simp)
  · intro r hr
    exact resetPhase_records_id_mem hr

theorem index_data_source_failure_aborts_witness :
    (index_data "m" "i" ⟨"u", some "in", "t", 2, 1000, false⟩
        { envBase with sourceFails := true }).result = Except.error Err.sourceUnavailable
    ∧ (index_data "m" "i" ⟨"u", some "in", "t", 2, 1000, false⟩
        { envBase with sourceFails := true }).records = envBase.records :=
  ⟨(index_data_source_failure_aborts "m" "i" ⟨"u", some "in", "t", 2, 1000, false⟩
      { envBase with sourceFails := true } rfl rfl rfl).1,
   (index_data_source_failure_aborts "m" "i" ⟨"u", some "in", "t", 2, 1000, false⟩
      { envBase with sourceFails := true } rfl rfl rfl).2.2.2.2.1⟩

/-- Claim C8 exactly as stated: for every call of `index_data` with no
input location, exactly one prompt line is emitted, and it precedes the
document-source construction (every prompt event lies in the trace prefix
before the first `createDocumentSource` event); with an input location
given, no prompt is emitted. -/
def C8Claim (m i : String) (params : IndexDataParams) (env : Env) : Prop :=
  (params.input_uri = none →
      countEvent Event.printPrompt (index_data m i params env).trace = 1
      ∧ countEvent Event.printPrompt
          ((index_data m i params env).trace.takeWhile
            fun e => !(isCreateSource e)) = 1)
  ∧ (params.input_uri ≠ none →
      countEvent Event.printPrompt (index_data m i params env).trace = 0)

/-- Parameters refuting claim C8 as stated: no input location, no
overwrite. -/
def paramsC8 : IndexDataParams :=
  ⟨"u", none, "t", 2, 1000, false⟩

theorem index_data_prompt_claim_false :
    ¬ C8Claim "m" "i" paramsC8 { envBase with metastoreResolveFails := true } := by
  unfold C8Claim
  decide

theorem prompt_counts_aux (m : String) (x : Option String)
    (t1 rest : List Event)
    (h1 : ∀ e ∈ t1, isResetEvent e = true)
    (hrest : Event.printPrompt ∉ rest) :
    countEvent Event.printPrompt
        (Event.resolveMetastore m ::
          (t1 ++ Event.printPrompt :: Event.createDocumentSource x :: rest)) = 1
    ∧ countEvent Event.printPrompt
        ((Event.resolveMetastore m ::
          (t1 ++ Event.printPrompt :: Event.createDocumentSource x :: rest)).takeWhile
            fun e => !(isCreateSource e)) = 1 := by
  have hp1 : Event.printPrompt ∉ t1 := fun hm => by
    have := ne_prompt_of_resetEvent (h1 _ hm)
    exact this rfl
  constructor
  · rw [countEvent_cons_of_ne _ (by simp), countEvent_append,
      countEvent_eq_zero hp1, countEvent_cons_self,
      countEvent_cons_of_ne _ (by simp), countEvent_eq_zero hrest]
  · have hsplit : Event.resolveMetastore m ::
        (t1 ++ Event.printPrompt :: Event.createDocumentSource x :: rest) =
        (Event.resolveMetastore m :: (t1 ++ [Event.printPrompt])) ++
          (Event.createDocumentSource x :: rest) := by
      simp
    rw [hsplit, takeWhile_append_of_all ?hall]
    case hall =>
      intro y hy
      rcases List.mem_cons.mp hy with h | h
      · subst h
        rfl
      · rcases List.mem_append.mp h with h | h
        · rw [not_createSource_of_resetEvent (h1 _ h)]
          rfl
        · rw [List.mem_singleton.mp h]
          rfl
    have htw : (Event.createDocumentSource x :: rest).takeWhile
        (fun e => !(isCreateSource e)) = [] := by
      rw [List.takeWhile_cons]
      simp [isCreateSource]
    rw [htw, List.append_nil, countEvent_cons_of_ne _ (by simp), countEvent_append,
      countEvent_eq_zero hp1, countEvent_cons_self, countEvent_eq_zero
        (List.not_mem_nil Event.printPrompt)]

theorem prompt_counts_aux0 (m : String) (x : Option String)
    (t1 rest : List Event)
    (h1 : ∀ e ∈ t1, isResetEvent e = true)
    (hrest : Event.printPrompt ∉ rest) :
    countEvent Event.printPrompt
        (Event.resolveMetastore m ::
          (t1 ++ Event.createDocumentSource x :: rest)) = 0 := by
  have hp1 : Event.printPrompt ∉ t1 := fun hm => by
    have := ne_prompt_of_resetEvent (h1 _ hm)
    exact this rfl
  rw [countEvent_cons_of_ne _ (by simp), countEvent_append,
    countEvent_eq_zero hp1, countEvent_cons_of_ne _ (by simp),
    countEvent_eq_zero hrest]

/-- Claim C8 (amended): for every call of `index_data` with no input
location in which the phases preceding the prompt succeed (metastore
resolution, and the reset phase when overwrite is requested), exactly one
user-facing prompt line is emitted, before the document source is
constructed; when an input location is given, no prompt is emitted. -/
theorem index_data_prompt_emitted (m i : String) (params : IndexDataParams)
    (env : Env)
    (hres : env.metastoreResolveFails = false)
    (hrp : (resetPhase i params env).result = Except.ok ()) :
    C8Claim m i params env := by
  unfold C8Claim
  have h1 := resetPhase_trace_resetEvents i params env
  constructor
  · intro hnone
    have hin : params.input_uri.isNone = true := by rw [hnone]; rfl
    cases hsrc : env.sourceFails with
    | true =>
        rw [index_data_eq_of_srcFail m i params env hres hrp hsrc]
        simp only [hin, if_true, hnone]
        have := prompt_counts_aux m none (resetPhase i params env).trace [] h1
          (List.not_mem_nil _)
        constructor
        · exact (by simpa using this.1)
        · exact (by simpa using this.2)
    | false =>
        rw [index_data_eq_run m i params env hres hrp hsrc]
        simp only [hin, if_true, hnone]
        have := prompt_counts_aux m none (resetPhase i params env).trace
          [Event.createChannel SPLIT_CHANNEL_SIZE, Event.runBuilder,
            Event.runFinalizer] h1 (by simp)
        constructor
        · exact (by simpa using this.1)
        · exact (by simpa using this.2)
  · intro hsome
    have hin : params.input_uri.isNone = false := by
      cases hx : params.input_uri
      · exact absurd hx hsome
      · rfl
    cases hsrc : env.sourceFails with
    | true =>
        rw [index_data_eq_of_srcFail m i params env hres hrp hsrc]
        simp only [hin, if_false]
        have := prompt_counts_aux0 m params.input_uri
          (resetPhase i params env).trace [] h1 (List.not_mem_nil _)
        exact (by simpa using this)
    | false =>
        rw [index_data_eq_run m i params env hres hrp hsrc]
        simp only [hin, if_false]
        have := prompt_counts_aux0 m params.input_uri
          (resetPhase i params env).trace
          [Event.createChannel SPLIT_CHANNEL_SIZE, Event.runBuilder,
            Event.runFinalizer] h1 (by simp)
        exact (by simpa using this)

theorem index_data_prompt_emitted_witness :
    countEvent Event.printPrompt
      (index_data "m" "i" paramsC8 envBase).trace = 1 :=
  ((index_data_prompt_emitted "m" "i" paramsC8 envBase rfl rfl).1 rfl).1

theorem channel_reachable_inv (cap : Nat) (c : BoundedChannel)
    (h : ChannelReachable cap c) :
    c.capacity = cap ∧ c.queue.length ≤ cap := by
  induction h with
  | refl => exact ⟨rfl, by simp [boundedChannel]⟩
  | tail hsteps hstep ih =>
      cases hstep with
      | send s hlt =>
          refine ⟨ih.1, ?_⟩
          have hcap := ih.1
          simp only [List.length_append, List.length_singleton]
          omega
      | recv s rest hq =>
          refine ⟨ih.1, ?_⟩
          have hlen := ih.2
          rw [hq] at hlen
          simp only [List.length_cons] at hlen
          simp only []
          omega

/-- Claim C7: the channel between the split builder and the split
finalizer is created with the fixed capacity `SPLIT_CHANNEL_SIZE` (30),
and in every state reachable by sends and receives from a fresh channel
of that capacity, the number of sealed-but-not-yet-received splits held
in the queue never exceeds that fixed capacity. -/
theorem split_channel_backpressure_bound :
    SPLIT_CHANNEL_SIZE = 30
    ∧ (∀ c, ChannelReachable SPLIT_CHANNEL_SIZE c →
        c.queue.length ≤ SPLIT_CHANNEL_SIZE)
    ∧ (∀ m i params env, env.metastoreResolveFails = false →
        (resetPhase i params env).result = Except.ok () →
        env.sourceFails = false →
        Event.createChannel SPLIT_CHANNEL_SIZE ∈ (index_data m i params env).trace) := by
  refine ⟨rfl, fun c h => (channel_reachable_inv SPLIT_CHANNEL_SIZE c h).2, ?_⟩
  intro m i params env hres hrp hsrc
  rw [index_data_eq_run m i params env hres hrp hsrc]
  simp

theorem split_channel_backpressure_bound_witness :
    (boundedChannel SPLIT_CHANNEL_SIZE).queue.length ≤ SPLIT_CHANNEL_SIZE
    ∧ Event.createChannel SPLIT_CHANNEL_SIZE ∈
        (index_data "m" "i" ⟨"u", some "in", "t", 2, 1000, false⟩ envBase).trace :=
  ⟨split_channel_backpressure_bound.2.1 (boundedChannel SPLIT_CHANNEL_SIZE)
      Relation.ReflTransGen.refl,
   split_channel_backpressure_bound.2.2 "m" "i"
      ⟨"u", some "in", "t", 2, 1000, false⟩ envBase rfl rfl rfl⟩
